import Mathlib

/-!
Shallow embedding of the DayTraderDiary aggregation core (App.tsx):
the range filter (`summaryEntries`), the calendar aggregator
(`calendarCells` / `monthSummary`), the analytics summarizer
(`analytics`) and the dashboard pagination, together with theorems
settling the specification claims about them.

Conventions of the embedding:
* JS `Date` values are used by the code only at calendar-day
  granularity (every comparison happens after `setHours(0,0,0,0)` or on
  `getFullYear/getMonth/getDate/getDay` fields), so a date is modelled
  as a civil date (year, month 1-12, day) together with its day number
  (`daysFromCivil`, the standard Gregorian civil-to-day-count
  conversion, 1970-01-01 = 0).  JS months are 0-based; the embedding
  uses 1-based months throughout and translates accordingly.
* JS numbers holding profits are modelled as rationals; the
  `Number.isFinite` guards of the source are identically true in this
  model and are noted where they occur.
* The `Map<string, number>` keyed by `dateKey(date)` strings is
  modelled as an insertion-ordered association list keyed by the civil
  date itself: `dateKey` is a bijective encoding of a civil date into a
  string, so the two keyings agree; the string form is kept for the
  cell identity keys and the `isToday` comparison, which the source
  performs on strings.
-/

namespace DayTraderDiary

/-- A calendar date: year (astronomical, as in JS `Date`), month 1-12,
day of month. -/
structure CivilDate where
  year : Int
  month : Nat
  day : Nat
deriving DecidableEq, Repr

/-- Gregorian leap-year rule, as implemented by JS `Date`. -/
def isLeap (y : Int) : Bool :=
  y % 4 == 0 && (y % 100 != 0 || y % 400 == 0)

/-- Number of days in a month; the source obtains it as
`new Date(year, month + 1, 0).getDate()` (with 0-based `month`). -/
def daysInMonth (y : Int) (m : Nat) : Nat :=
  if m = 2 then (if isLeap y then 29 else 28)
  else if m = 4 ∨ m = 6 ∨ m = 9 ∨ m = 11 then 30
  else 31

/-- Day count of a civil date with 1970-01-01 as day 0 (the standard
civil-from-days algorithm); this is the day-granular timestamp that JS
`Date` arithmetic (`setDate`, `<`, `>` after midnight normalization)
operates on. -/
def daysFromCivil (y : Int) (m d : Nat) : Int :=
  let y2 : Int := if m ≤ 2 then y - 1 else y
  let era : Int := (if 0 ≤ y2 then y2 else y2 - 399) / 400
  let yoe : Int := y2 - era * 400
  let mp : Nat := (m + 9) % 12
  let doy : Int := (153 * (mp : Int) + 2) / 5 + (d : Int) - 1
  let doe : Int := yoe * 365 + yoe / 4 - yoe / 100 + doy
  era * 146097 + doe - 719468

/-- Day number of a civil date. -/
def CivilDate.ord (dt : CivilDate) : Int :=
  daysFromCivil dt.year dt.month dt.day

/-- JS `Date.prototype.getDay`: weekday index with 0 = Sunday.
Day 0 (1970-01-01) was a Thursday. -/
def jsGetDay (o : Int) : Int :=
  (o + 4) % 7

/-- In-process trade record (types.ts `TradeEntry`); `realizedProfit`
is `number | null` in the source, modelled as `Option ℚ` with `none`
for an absent profit.  `tradeDate` is stored as a date string in the
source and re-parsed with `new Date(...)` wherever it is used, always
at day granularity; it is modelled as the parsed civil date. -/
structure TradeEntry where
  id : String
  userId : String
  tradeDate : CivilDate
  ticker : String
  tickerName : String
  realizedProfit : Option ℚ
  reason : Option String
  reflection : Option String
  imagePath : Option String
deriving DecidableEq, Repr

/-- A minimal record for concrete test inputs. -/
def mkEntry (i : String) (dt : CivilDate) (p : Option ℚ) : TradeEntry :=
  ⟨i, "u", dt, "T", "TName", p, none, none, none⟩

/-- The `SummaryRange` union type of App.tsx. -/
inductive SummaryRange where
  | daily
  | weekly
  | monthly
  | yearly
  | all
deriving DecidableEq, Repr

/-- Start of the weekly window: `sunday.setDate(today.getDate() -
today.getDay())` in the source, i.e. today minus its weekday index. -/
def weeklyStart (today : CivilDate) : Int :=
  today.ord - jsGetDay today.ord

/-- End of the weekly window: `saturday = sunday + 6 days`. -/
def weeklyEnd (today : CivilDate) : Int :=
  weeklyStart today + 6

/-- The record predicate of the `entries.filter` at the end of the
`summaryEntries` useMemo: reject when `start && tradeDate < start` or
`end && tradeDate > end`, otherwise keep. -/
def passesWindow (start stop : Option Int) (e : TradeEntry) : Bool :=
  let d := e.tradeDate.ord
  if start.any (fun s => decide (d < s)) then false
  else if stop.any (fun s => decide (s < d)) then false
  else true

/-- The range filter (`summaryEntries` useMemo, App.tsx): early return
of `[]` for an empty list, early return of the whole list for `all`,
otherwise an inclusive `[start, end]` window computed from `today` and
an order-preserving filter.  Each record's `tradeDate` is compared
after midnight normalization, i.e. at day granularity. -/
def summaryEntries (entries : List TradeEntry) (range : SummaryRange)
    (today : CivilDate) : List TradeEntry :=
  if entries.length = 0 then []
  else
    match range with
    | .all => entries
    | .daily =>
        let t := today.ord
        entries.filter (passesWindow (some t) (some t))
    | .weekly =>
        entries.filter
          (passesWindow (some (weeklyStart today)) (some (weeklyEnd today)))
    | .monthly =>
        let s := daysFromCivil today.year today.month 1
        let e := daysFromCivil today.year today.month
          (daysInMonth today.year today.month)
        entries.filter (passesWindow (some s) (some e))
    | .yearly =>
        let s := daysFromCivil today.year 1 1
        let e := daysFromCivil today.year 12 31
        entries.filter (passesWindow (some s) (some e))

/-- The spec's description of the range windows (§4.1), used to state
the refinement claim C6: for each non-`all` range, the inclusive
`[start, end]` day window resolved against `today`. -/
def rangeWindowSpec (range : SummaryRange) (today : CivilDate) :
    Option (Int × Int) :=
  match range with
  | .all => none
  | .daily => some (today.ord, today.ord)
  | .weekly => some (weeklyStart today, weeklyEnd today)
  | .monthly =>
      some (daysFromCivil today.year today.month 1,
        daysFromCivil today.year today.month
          (daysInMonth today.year today.month))
  | .yearly =>
      some (daysFromCivil today.year 1 1, daysFromCivil today.year 12 31)

/-- Result shape of the `analytics` useMemo (the spec's `summarize`).
The field the spec calls `profitSampleCount` is named `winSampleCount`
in the source. -/
structure AnalyticsSummary where
  totalTrades : Nat
  totalProfit : ℚ
  winRate : ℚ
  winSampleCount : Nat
deriving DecidableEq, Repr

/-- One step of the `summaryEntries.forEach` accumulation in the
`analytics` useMemo; the accumulator is (totalProfit, winCount,
profitSamples).  The source skips an entry when `realizedProfit` is
`null` or not finite; in the rational model the finiteness guard is
identically true. -/
def analyticsStep (acc : ℚ × Nat × Nat) (e : TradeEntry) : ℚ × Nat × Nat :=
  match e.realizedProfit with
  | none => acc
  | some p =>
      (acc.1 + p, (if 0 < p then acc.2.1 + 1 else acc.2.1), acc.2.2 + 1)

/-- The analytics summarizer (`analytics` useMemo, App.tsx): early
return of all-zero metrics when the input is empty, otherwise a single
pass accumulating total profit, win count and profit-sample count, with
`winRate: profitSamples ? winCount / profitSamples : 0`. -/
def analytics (entries : List TradeEntry) : AnalyticsSummary :=
  let totalTrades := entries.length
  if totalTrades = 0 then ⟨0, 0, 0, 0⟩
  else
    let acc := entries.foldl analyticsStep (0, 0, 0)
    ⟨totalTrades, acc.1,
      if acc.2.2 = 0 then 0 else (acc.2.1 : ℚ) / (acc.2.2 : ℚ), acc.2.2⟩

/-- The recorded (non-absent) profit values of a record list, in input
order; in the source these are the values that survive the
`realizedProfit === null || !Number.isFinite(...)` guard. -/
def profitSamples (l : List TradeEntry) : List ℚ :=
  l.filterMap TradeEntry.realizedProfit

/-- Number of winning samples: recorded profits strictly above zero. -/
def winCount (l : List TradeEntry) : Nat :=
  ((profitSamples l).filter (fun p => decide (0 < p))).length

/-- `dateKey` of App.tsx: `"y-MM-DD"` with month and day left-padded to
two digits (month printed 1-based, as `getMonth() + 1`). -/
def pad2 (n : Nat) : String :=
  if n < 10 then "0" ++ toString n else toString n

/-- String identity key of a calendar date. -/
def dateKey (dt : CivilDate) : String :=
  toString dt.year ++ "-" ++ pad2 dt.month ++ "-" ++ pad2 dt.day

/-- A cell of the calendar grid (types.ts `CalendarCell`): either a
placeholder carrying only its key, or a real day cell with the day
number, the day's netted profit (`null` when no record of that day had
a recorded profit) and the `isToday` flag. -/
inductive CalendarCell where
  | placeholder (key : String)
  | dayCell (key : String) (day : Nat) (profit : Option ℚ) (isToday : Bool)
deriving DecidableEq, Repr

/-- Month-level totals (types.ts `MonthSummary`). -/
structure MonthSummary where
  gains : ℚ
  losses : ℚ
  net : ℚ
deriving DecidableEq, Repr

/-- The per-day profit map built by the calendar aggregator, modelled
as an insertion-ordered association list keyed by the civil date (the
source keys the `Map` by the `dateKey` string of the same date; the two
keyings agree since `dateKey` encodes the date injectively). -/
abbrev ProfitMap := List (CivilDate × ℚ)

/-- `map.set(key, (map.get(key) ?? 0) + profit)`: add to an existing
key in place, or append a new key. -/
def mapSetAdd : ProfitMap → CivilDate → ℚ → ProfitMap
  | [], k, p => [(k, p)]
  | (k', v) :: rest, k, p =>
      if k' = k then (k', v + p) :: rest
      else (k', v) :: mapSetAdd rest k p

/-- `map.get(key)` returning `none` for a missing key (the source uses
`map.has(key) ? map.get(key)! : null`). -/
def mapGet : ProfitMap → CivilDate → Option ℚ
  | [], _ => none
  | (k', v) :: rest, k => if k' = k then some v else mapGet rest k

/-- One step of the `entries.forEach` building `profitsByDate`: skip
entries with an absent (or, in the source, non-finite) profit, skip
entries outside the target year/month, otherwise net the profit into
the entry's day. -/
def profitsStep (cy : Int) (cm : Nat) (mp : ProfitMap) (e : TradeEntry) :
    ProfitMap :=
  match e.realizedProfit with
  | none => mp
  | some p =>
      if e.tradeDate.year = cy ∧ e.tradeDate.month = cm then
        mapSetAdd mp e.tradeDate p
      else mp

/-- The per-day profit map of the calendar aggregator for target month
`(cy, cm)`. -/
def profitsByDate (entries : List TradeEntry) (cy : Int) (cm : Nat) :
    ProfitMap :=
  entries.foldl (profitsStep cy cm) []

/-- One step of the `profitsByDate.forEach` accumulating the month
summary: a positive day net into `totalProfit`, a negative day net into
`totalLoss`, a zero day net into neither. -/
def summaryStep (acc : ℚ × ℚ) (kv : CivilDate × ℚ) : ℚ × ℚ :=
  if 0 < kv.2 then (acc.1 + kv.2, acc.2)
  else if kv.2 < 0 then (acc.1, acc.2 + kv.2)
  else acc

/-- The `profitsByDate.forEach` accumulation of the month summary. -/
def summaryFold (mp : ProfitMap) : ℚ × ℚ :=
  mp.foldl summaryStep (0, 0)

/-- The `MonthSummary` of the calendar useMemo: `gains`/`losses` from
the per-day nets, `net = gains + losses`. -/
def monthSummary (entries : List TradeEntry) (cy : Int) (cm : Nat) :
    MonthSummary :=
  let acc := summaryFold (profitsByDate entries cy cm)
  ⟨acc.1, acc.2, acc.1 + acc.2⟩

/-- The calendar grid (`calendarCells` in the useMemo): leading
placeholders up to the weekday of the 1st, one day cell per day of the
month with the day's net profit and the string-compared `isToday` flag,
then trailing placeholders only when the count is not yet a multiple
of 7 (`remainder` loop). -/
def calendarCells (entries : List TradeEntry) (cy : Int) (cm : Nat)
    (today : CivilDate) : List CalendarCell :=
  let mp := profitsByDate entries cy cm
  let todayKey := dateKey today
  let firstWeekday := (jsGetDay (daysFromCivil cy cm 1)).toNat
  let leading := (List.range firstWeekday).map
    (fun i => CalendarCell.placeholder ("placeholder-start-" ++ toString i))
  let dayCells := (List.range' 1 (daysInMonth cy cm)).map
    (fun d =>
      let key := dateKey ⟨cy, cm, d⟩
      CalendarCell.dayCell key d (mapGet mp ⟨cy, cm, d⟩) (key == todayKey))
  let base := leading ++ dayCells
  let r := base.length % 7
  base ++
    (if r = 0 then []
     else (List.range' r (7 - r)).map
       (fun i => CalendarCell.placeholder ("placeholder-end-" ++ toString i)))

/-- The month label: the source formats the first day of the target
month with `Intl.DateTimeFormat("ja-JP", {year, month})`, a pure
function of the target month; modelled as the same "Y年M月" rendering. -/
def monthLabel (cy : Int) (cm : Nat) : String :=
  toString cy ++ "年" ++ toString cm ++ "月"

/-- The full output of the calendar useMemo (the spec's
`buildMonthView`): cells, month summary and label. -/
structure MonthView where
  cells : List CalendarCell
  summary : MonthSummary
  label : String
deriving DecidableEq, Repr

/-- `buildMonthView(records, targetMonth, today)`. -/
def buildMonthView (entries : List TradeEntry) (cy : Int) (cm : Nat)
    (today : CivilDate) : MonthView :=
  ⟨calendarCells entries cy cm today, monthSummary entries cy cm,
    monthLabel cy cm⟩

/-- Day number of a cell (`none` for placeholders). -/
def cellDay : CalendarCell → Option Nat
  | .placeholder _ => none
  | .dayCell _ d _ _ => some d

/-- Placeholder test of a cell (`cell.isPlaceholder` truthiness). -/
def isPlaceholderCell : CalendarCell → Bool
  | .placeholder _ => true
  | .dayCell _ _ _ _ => false

/-- The recorded profits attributed to calendar day `k` by a record
list, in input order. -/
def dayProfits (entries : List TradeEntry) (k : CivilDate) : List ℚ :=
  entries.filterMap
    (fun e => if e.tradeDate = k then e.realizedProfit else none)

/-- `PAGE_SIZE` of App.tsx. -/
def PAGE_SIZE : Nat := 20

/-- `Math.max(1, Math.ceil(n / PAGE_SIZE) || 1)`: the ceiling division
is the exact Nat ceiling `(n + PAGE_SIZE - 1) / PAGE_SIZE`, and the JS
`|| 1` maps a 0 to 1 before the outer max. -/
def totalPages (n : Nat) : Nat :=
  let c := (n + PAGE_SIZE - 1) / PAGE_SIZE
  max 1 (if c = 0 then 1 else c)

/-- `filteredEntries.slice(startIndex, startIndex + PAGE_SIZE)` with
`startIndex = (currentPage - 1) * PAGE_SIZE`. -/
def paginatedEntries (l : List TradeEntry) (page : Nat) : List TradeEntry :=
  (l.drop ((page - 1) * PAGE_SIZE)).take PAGE_SIZE

/-- The page reset performed when the search term or the selected range
changes: `setCurrentPage(1)`. -/
def resetPage : Nat := 1

/-- The clamping effect `setCurrentPage(prev => prev > totalPages ?
totalPages : prev)` run whenever `totalPages` changes. -/
def clampPage (tp p : Nat) : Nat :=
  if tp < p then tp else p

/-- The previous-page button: `Math.max(1, prev - 1)`. -/
def prevPage (p : Nat) : Nat := max 1 (p - 1)

/-- The next-page button: `Math.min(totalPages, prev + 1)`. -/
def nextPage (tp p : Nat) : Nat := min tp (p + 1)

/-! ## Theorems -/

/-- Characterization of the `analytics` accumulation pass: starting
from any accumulator, the fold adds the sum of recorded profits, the
number of winning samples and the number of samples. -/
theorem analytics_foldl (l : List TradeEntry) (tp : ℚ) (wc ps : Nat) :
    l.foldl analyticsStep (tp, wc, ps) =
      (tp + (profitSamples l).sum, wc + winCount l,
        ps + (profitSamples l).length) := by
  induction l generalizing tp wc ps with
  | nil => simp [profitSamples, winCount]
  | cons e t ih =>
      cases h : e.realizedProfit with
      | none =>
          rw [List.foldl_cons]
          simp only [analyticsStep, h]
          rw [ih]
          simp [profitSamples, winCount, List.filterMap_cons, h]
      | some p =>
          rw [List.foldl_cons]
          simp only [analyticsStep, h]
          rw [ih]
          by_cases hp : 0 < p
          · simp [profitSamples, winCount, List.filterMap_cons, h,
              List.filter_cons, hp, Prod.mk.injEq]
            exact ⟨by ring, by omega, by omega⟩
          · simp [profitSamples, winCount, List.filterMap_cons, h,
              List.filter_cons, hp, Prod.mk.injEq]
            exact ⟨by ring, by omega⟩

/-- Specialization of the accumulation characterization to the zero
accumulator the source starts from. -/
theorem analytics_foldl_zero (l : List TradeEntry) :
    l.foldl analyticsStep 0 =
      ((profitSamples l).sum, winCount l, (profitSamples l).length) := by
  have h := analytics_foldl l 0 0 0
  simpa using h

/-- C1 counterexample: at the empty input the summarizer's result has
`winSampleCount = 0` and yet carries `winRate = 0` — the win rate is
the number 0, not a `null`/absent value as the claim states (the
result type has no absent case at all; the UI decides to render the
placeholder from `winSampleCount`, not from `winRate`). -/
theorem analytics_empty_winRate_zero :
    (analytics []).winSampleCount = 0 ∧ (analytics []).winRate = 0 :=
  ⟨rfl, rfl⟩

/-- C1 (amended): the summarizer's `winRate` equals (count of records
with positive recorded profit) divided by the profit-sample count when
that count is positive, and equals 0 (not `null`) when the
profit-sample count is 0; in particular `analytics []` returns all-zero
metrics with `winRate = 0`. -/
theorem analytics_winRate_formula (l : List TradeEntry) :
    (analytics l).winRate =
      (if (profitSamples l).length = 0 then 0
       else (winCount l : ℚ) / ((profitSamples l).length : ℚ))
    ∧ analytics [] = ⟨0, 0, 0, 0⟩ := by
  constructor
  · by_cases hl : l.length = 0
    · have h0 : l = [] := List.length_eq_zero.mp hl
      subst h0
      simp [analytics, profitSamples]
    · simp [analytics, hl, analytics_foldl_zero]
  · rfl

/-- C5: the summarizer's `totalTrades` counts every input record,
`totalProfit` sums the recorded profit values (0 when there are none),
`winSampleCount` (the spec's `profitSampleCount`) counts the records
with a recorded value, and on records with profits
`[100, -50, absent]` the result is `totalTrades = 3`,
`totalProfit = 50`, `winSampleCount = 2`, `winRate = 1/2`. -/
theorem analytics_totals (l : List TradeEntry) :
    (analytics l).totalTrades = l.length
    ∧ (analytics l).totalProfit = (profitSamples l).sum
    ∧ (analytics l).winSampleCount = (profitSamples l).length
    ∧ analytics
        [mkEntry "a" ⟨2024, 5, 10⟩ (some 100),
         mkEntry "b" ⟨2024, 5, 10⟩ (some (-50)),
         mkEntry "c" ⟨2024, 5, 11⟩ none] =
        ⟨3, 50, 1/2, 2⟩ := by
  refine ⟨?_, ?_, ?_, by
    norm_num [analytics, analyticsStep, mkEntry]⟩ <;>
    · by_cases hl : l.length = 0
      · have h0 : l = [] := List.length_eq_zero.mp hl
        subst h0
        simp [analytics, profitSamples]
      · simp [analytics, hl, analytics_foldl_zero]

/-- The two-sided rejection test of the source's `entries.filter`
coincides with membership in the inclusive `[start, end]` window. -/
theorem passesWindow_some (s e : Int) (en : TradeEntry) :
    passesWindow (some s) (some e) en =
      (decide (s ≤ en.tradeDate.ord) && decide (en.tradeDate.ord ≤ e)) := by
  rcases lt_or_le en.tradeDate.ord s with h1 | h1
  · simp [passesWindow, h1, not_le.mpr h1]
  · rcases lt_or_le e en.tradeDate.ord with h2 | h2
    · simp [passesWindow, h1, h2, not_lt.mpr h1, not_le.mpr h2]
    · simp [passesWindow, h1, h2, not_lt.mpr h1, not_lt.mpr h2]

/-- C6: the range filter with range `all` is the identity on every
record list (including the empty one), and for every other range it
returns the order-preserving subsequence of records whose
day-normalized trade date lies in the inclusive `[start, end]` window
of that range. -/
theorem summaryEntries_window_spec (entries : List TradeEntry)
    (today : CivilDate) :
    summaryEntries entries .all today = entries
    ∧ ∀ range s e, rangeWindowSpec range today = some (s, e) →
        summaryEntries entries range today =
          entries.filter
            (fun en =>
              decide (s ≤ en.tradeDate.ord) && decide (en.tradeDate.ord ≤ e)) := by
  have hfil : ∀ (a b : Int),
      entries.filter (passesWindow (some a) (some b)) =
        entries.filter
          (fun en =>
            decide (a ≤ en.tradeDate.ord) && decide (en.tradeDate.ord ≤ b)) := by
    intro a b
    exact List.filter_congr (fun x _ => passesWindow_some a b x)
  constructor
  · by_cases h : entries.length = 0
    · rw [List.length_eq_zero.mp h]
      simp [summaryEntries]
    · simp [summaryEntries, h]
  · intro range s e hr
    by_cases h : entries.length = 0
    · rw [List.length_eq_zero.mp h]
      simp [summaryEntries]
    · cases range with
      | all => simp [rangeWindowSpec] at hr
      | daily =>
          simp only [rangeWindowSpec, Option.some.injEq, Prod.mk.injEq] at hr
          obtain ⟨hs, he⟩ := hr
          subst hs; subst he
          simp only [summaryEntries, h, if_false]
          exact hfil _ _
      | weekly =>
          simp only [rangeWindowSpec, Option.some.injEq, Prod.mk.injEq] at hr
          obtain ⟨hs, he⟩ := hr
          subst hs; subst he
          simp only [summaryEntries, h, if_false]
          exact hfil _ _
      | monthly =>
          simp only [rangeWindowSpec, Option.some.injEq, Prod.mk.injEq] at hr
          obtain ⟨hs, he⟩ := hr
          subst hs; subst he
          simp only [summaryEntries, h, if_false]
          exact hfil _ _
      | yearly =>
          simp only [rangeWindowSpec, Option.some.injEq, Prod.mk.injEq] at hr
          obtain ⟨hs, he⟩ := hr
          subst hs; subst he
          simp only [summaryEntries, h, if_false]
          exact hfil _ _

/-- C6 witness: the `weekly` window of a concrete day filters a
two-record list down to the in-window record. -/
theorem summaryEntries_window_spec_witness :
    summaryEntries
        [mkEntry "a" ⟨2025, 10, 8⟩ (some 1), mkEntry "b" ⟨2025, 9, 1⟩ none]
        .all ⟨2025, 10, 8⟩ =
      [mkEntry "a" ⟨2025, 10, 8⟩ (some 1), mkEntry "b" ⟨2025, 9, 1⟩ none]
    ∧ summaryEntries
        [mkEntry "a" ⟨2025, 10, 8⟩ (some 1), mkEntry "b" ⟨2025, 9, 1⟩ none]
        .weekly ⟨2025, 10, 8⟩ =
      List.filter
        (fun en =>
          decide (weeklyStart ⟨2025, 10, 8⟩ ≤ en.tradeDate.ord) &&
            decide (en.tradeDate.ord ≤ weeklyEnd ⟨2025, 10, 8⟩))
        [mkEntry "a" ⟨2025, 10, 8⟩ (some 1), mkEntry "b" ⟨2025, 9, 1⟩ none] :=
  ⟨(summaryEntries_window_spec _ _).1,
    (summaryEntries_window_spec _ _).2 .weekly _ _ rfl⟩

/-- C7: for every `today`, the weekly window is 6 days wide, starts on
a Sunday (weekday index 0), and its start is the most recent Sunday at
or before `today`. -/
theorem weekly_window_shape (today : CivilDate) :
    weeklyEnd today - weeklyStart today = 6
    ∧ jsGetDay (weeklyStart today) = 0
    ∧ weeklyStart today ≤ today.ord
    ∧ ∀ x : Int, jsGetDay x = 0 → x ≤ today.ord →
        x ≤ weeklyStart today := by
  refine ⟨by simp [weeklyEnd], ?_, ?_, ?_⟩
  · simp only [weeklyStart, jsGetDay]
    omega
  · simp only [weeklyStart, jsGetDay]
    omega
  · intro x hx hxo
    simp only [jsGetDay] at hx
    simp only [weeklyStart, jsGetDay]
    omega

/-- C7 witness: at 2025-10-08 (a Wednesday) the weekly start is a
Sunday and 2025-10-05 (the preceding Sunday) is at or before it. -/
theorem weekly_window_shape_witness :
    jsGetDay (weeklyStart ⟨2025, 10, 8⟩) = 0
    ∧ (⟨2025, 10, 5⟩ : CivilDate).ord ≤ weeklyStart ⟨2025, 10, 8⟩ :=
  ⟨(weekly_window_shape ⟨2025, 10, 8⟩).2.1,
    (weekly_window_shape ⟨2025, 10, 8⟩).2.2.2 _ (by decide) (by decide)⟩

/-- C10: the dashboard pagination invariant.  `totalPages` is
`max(1, ceil(n / 20))`; the rendered page is the slice starting at
`(currentPage - 1) * 20` and holds at most 20 entries, its `i`-th
element being the `((currentPage - 1) * 20 + i)`-th filtered entry; the
page resets to 1 on a search/range change, the prev/next buttons stay
inside `[1, totalPages]`, and after the filtered list shrinks the
clamping effect brings the page back into `[1, totalPages]` of the new
list. -/
theorem pagination_invariant (l : List TradeEntry) (n p : Nat)
    (hp1 : 1 ≤ p) (hptp : p ≤ totalPages n) :
    totalPages n = max 1 ((n + PAGE_SIZE - 1) / PAGE_SIZE)
    ∧ (paginatedEntries l p).length ≤ PAGE_SIZE
    ∧ (∀ i : Nat, (paginatedEntries l p)[i]? =
        if i < PAGE_SIZE then l[(p - 1) * PAGE_SIZE + i]? else none)
    ∧ resetPage = 1 ∧ 1 ≤ resetPage ∧ resetPage ≤ totalPages n
    ∧ 1 ≤ prevPage p ∧ prevPage p ≤ totalPages n
    ∧ 1 ≤ nextPage (totalPages n) p ∧ nextPage (totalPages n) p ≤ totalPages n
    ∧ ∀ m : Nat, 1 ≤ clampPage (totalPages m) p
        ∧ clampPage (totalPages m) p ≤ totalPages m := by
  have htp : ∀ k : Nat, 1 ≤ totalPages k := by
    intro k
    simp only [totalPages]
    omega
  refine ⟨?_, ?_, ?_, rfl, le_refl 1, htp n, ?_, ?_, ?_, ?_, ?_⟩
  · simp only [totalPages]
    split <;> omega
  · simp only [paginatedEntries]
    exact le_trans (List.length_take_le _ _) (le_refl _)
  · intro i
    simp only [paginatedEntries, List.getElem?_take, List.getElem?_drop]
  · simp only [prevPage]
    omega
  · simp only [prevPage]
    omega
  · simp only [nextPage]
    omega
  · simp only [nextPage]
    have := htp n
    omega
  · intro m
    have := htp m
    constructor
    · simp only [clampPage]
      split <;> omega
    · simp only [clampPage]
      split <;> omega

/-- C10 witness: with 45 filtered entries there are 3 pages, and page 3
of a concrete list holds at most 20 entries. -/
theorem pagination_invariant_witness :
    totalPages 45 = max 1 ((45 + PAGE_SIZE - 1) / PAGE_SIZE)
    ∧ (paginatedEntries [mkEntry "a" ⟨2025, 1, 1⟩ none] 3).length ≤ PAGE_SIZE :=
  ⟨(pagination_invariant [] 45 3 (by decide) (by decide)).1,
    (pagination_invariant [mkEntry "a" ⟨2025, 1, 1⟩ none] 45 3 (by decide)
      (by decide)).2.1⟩

/-- Every month length produced by the Gregorian rule is positive. -/
theorem daysInMonth_pos (y : Int) (m : Nat) : 1 ≤ daysInMonth y m := by
  simp only [daysInMonth]
  split_ifs <;> norm_num

/-- Unfolding of the grid construction into its three segments:
leading placeholders, day cells, trailing placeholders. -/
theorem calendarCells_eq (entries : List TradeEntry) (cy : Int) (cm : Nat)
    (today : CivilDate) :
    calendarCells entries cy cm today =
      (List.range (jsGetDay (daysFromCivil cy cm 1)).toNat).map
        (fun i => CalendarCell.placeholder ("placeholder-start-" ++ toString i))
      ++ (List.range' 1 (daysInMonth cy cm)).map
        (fun d => CalendarCell.dayCell (dateKey ⟨cy, cm, d⟩) d
          (mapGet (profitsByDate entries cy cm) ⟨cy, cm, d⟩)
          (dateKey ⟨cy, cm, d⟩ == dateKey today))
      ++ (if ((jsGetDay (daysFromCivil cy cm 1)).toNat + daysInMonth cy cm)
              % 7 = 0
          then []
          else (List.range'
              (((jsGetDay (daysFromCivil cy cm 1)).toNat + daysInMonth cy cm)
                % 7)
              (7 - ((jsGetDay (daysFromCivil cy cm 1)).toNat
                + daysInMonth cy cm) % 7)).map
            (fun i =>
              CalendarCell.placeholder ("placeholder-end-" ++ toString i))) := by
  simp [calendarCells]

/-- A `filterMap` that hits only `none` produces the empty list. -/
theorem filterMap_const_none {α β : Type} (l : List α) :
    l.filterMap (fun _ => (none : Option β)) = [] := by
  induction l with
  | nil => rfl
  | cons a t ih => simp [List.filterMap_cons, ih]

/-- `takeWhile` passes over a prefix that satisfies the predicate. -/
theorem takeWhile_append_all {α : Type} {p : α → Bool} {xs ys : List α}
    (h : ∀ a ∈ xs, p a = true) :
    (xs ++ ys).takeWhile p = xs ++ ys.takeWhile p := by
  induction xs with
  | nil => simp
  | cons a t ih =>
      have ha : p a = true := h a (List.mem_cons_self a t)
      have ih2 := ih (fun b hb => h b (List.mem_cons_of_mem a hb))
      simp [List.takeWhile_cons, ha, ih2]

/-- Total cell count of the grid: weekday offset plus month length,
padded only when that total is not yet a multiple of 7. -/
theorem calendarCells_length (entries : List TradeEntry) (cy : Int)
    (cm : Nat) (today : CivilDate) :
    (calendarCells entries cy cm today).length =
      (jsGetDay (daysFromCivil cy cm 1)).toNat + daysInMonth cy cm +
        (if ((jsGetDay (daysFromCivil cy cm 1)).toNat + daysInMonth cy cm)
            % 7 = 0
         then 0
         else 7 - ((jsGetDay (daysFromCivil cy cm 1)).toNat
            + daysInMonth cy cm) % 7) := by
  rw [calendarCells_eq]
  split
  · simp
  · simp
    omega

/-- The day numbers of the grid cells are exactly the days of the
target month, in ascending order. -/
theorem calendarCells_filterMap_day (entries : List TradeEntry) (cy : Int)
    (cm : Nat) (today : CivilDate) :
    (calendarCells entries cy cm today).filterMap cellDay =
      List.range' 1 (daysInMonth cy cm) := by
  rw [calendarCells_eq]
  rw [List.append_assoc, List.filterMap_append, List.filterMap_append]
  rw [List.filterMap_map, List.filterMap_map]
  simp only [Function.comp_def, cellDay]
  rw [filterMap_const_none]
  split
  · simp [List.filterMap_some]
  · rw [List.filterMap_map]
    simp only [Function.comp_def, cellDay]
    rw [filterMap_const_none]
    simp [List.filterMap_some]

/-- The grid's initial run of placeholders has exactly the length of
the weekday index of the 1st of the month. -/
theorem calendarCells_leading (entries : List TradeEntry) (cy : Int)
    (cm : Nat) (today : CivilDate) :
    ((calendarCells entries cy cm today).takeWhile isPlaceholderCell).length =
      (jsGetDay (daysFromCivil cy cm 1)).toNat := by
  rw [calendarCells_eq, List.append_assoc]
  rw [takeWhile_append_all (p := isPlaceholderCell)]
  · obtain ⟨kk, hkk⟩ : ∃ kk, daysInMonth cy cm = kk + 1 :=
      ⟨daysInMonth cy cm - 1, by have := daysInMonth_pos cy cm; omega⟩
    rw [hkk, List.range'_succ, List.map_cons, List.cons_append,
      List.takeWhile_cons]
    simp [isPlaceholderCell]
  · intro a ha
    obtain ⟨i, _, rfl⟩ := List.mem_map.mp ha
    rfl

/-- Everything after the weekday offset plus the day cells is a
placeholder, and the trailing run is shorter than a week. -/
theorem calendarCells_trailing (entries : List TradeEntry) (cy : Int)
    (cm : Nat) (today : CivilDate) :
    ((calendarCells entries cy cm today).drop
        ((jsGetDay (daysFromCivil cy cm 1)).toNat + daysInMonth cy cm)).all
      isPlaceholderCell = true
    ∧ ((calendarCells entries cy cm today).drop
        ((jsGetDay (daysFromCivil cy cm 1)).toNat + daysInMonth cy cm)).length
      < 7 := by
  have hdrop : (calendarCells entries cy cm today).drop
      ((jsGetDay (daysFromCivil cy cm 1)).toNat + daysInMonth cy cm) =
      (if ((jsGetDay (daysFromCivil cy cm 1)).toNat + daysInMonth cy cm)
          % 7 = 0
       then []
       else (List.range'
          (((jsGetDay (daysFromCivil cy cm 1)).toNat + daysInMonth cy cm) % 7)
          (7 - ((jsGetDay (daysFromCivil cy cm 1)).toNat + daysInMonth cy cm)
            % 7)).map
          (fun i =>
            CalendarCell.placeholder ("placeholder-end-" ++ toString i))) := by
    rw [calendarCells_eq]
    apply List.drop_left'
    simp
  rw [hdrop]
  constructor
  · split
    · rfl
    · simp only [List.all_eq_true]
      intro c hc
      obtain ⟨i, _, rfl⟩ := List.mem_map.mp hc
      rfl
  · split
    · simp
    · simp only [List.length_map, List.length_range']
      omega

/-- C3: for every record set and target month the grid length is a
multiple of 7; the day numbers of its non-placeholder cells are exactly
the days 1..last of the target month in ascending order; the leading
placeholder run has the length of the weekday index (0 = Sunday) of the
1st; and past the leading run and the day cells only placeholders
remain, fewer than 7 of them (the final-row padding). -/
theorem calendarCells_grid_invariant (entries : List TradeEntry) (cy : Int)
    (cm : Nat) (today : CivilDate) :
    (calendarCells entries cy cm today).length % 7 = 0
    ∧ (calendarCells entries cy cm today).filterMap cellDay =
        List.range' 1 (daysInMonth cy cm)
    ∧ ((calendarCells entries cy cm today).takeWhile
        isPlaceholderCell).length = (jsGetDay (daysFromCivil cy cm 1)).toNat
    ∧ ((calendarCells entries cy cm today).drop
        ((jsGetDay (daysFromCivil cy cm 1)).toNat + daysInMonth cy cm)).all
        isPlaceholderCell = true
    ∧ ((calendarCells entries cy cm today).drop
        ((jsGetDay (daysFromCivil cy cm 1)).toNat + daysInMonth cy cm)).length
        < 7 := by
  refine ⟨?_, calendarCells_filterMap_day entries cy cm today,
    calendarCells_leading entries cy cm today,
    (calendarCells_trailing entries cy cm today).1,
    (calendarCells_trailing entries cy cm today).2⟩
  rw [calendarCells_length]
  split
  · omega
  · omega

/-- C2 counterexample: April 2022 is a 30-day month whose 1st is a
Friday (weekday index 5), and the grid for it has 5 + 30 = 35 cells —
already a multiple of 7, so the remainder guard appends no trailing
placeholders and the total is 35, not the claimed 42. -/
theorem april2022_grid_not_42 :
    daysInMonth 2022 4 = 30
    ∧ jsGetDay (daysFromCivil 2022 4 1) = 5
    ∧ (calendarCells [] 2022 4 ⟨2022, 4, 15⟩).length = 35
    ∧ ¬ (calendarCells [] 2022 4 ⟨2022, 4, 15⟩).length = 42 := by
  have h35 : (calendarCells [] 2022 4 ⟨2022, 4, 15⟩).length = 35 := by
    rw [calendarCells_length]
    decide
  exact ⟨by decide, by decide, h35, by rw [h35]; decide⟩

/-- C2 (amended): for a target month with 30 days whose 1st falls on a
Friday (weekday index 5), the grid is 5 leading placeholders followed
by the 30 day cells and no trailing placeholders: 35 cells in total,
which is already a multiple of 7. -/
theorem calendarCells_30day_friday (entries : List TradeEntry) (cy : Int)
    (cm : Nat) (today : CivilDate)
    (h30 : daysInMonth cy cm = 30)
    (hfw : jsGetDay (daysFromCivil cy cm 1) = 5) :
    ((calendarCells entries cy cm today).takeWhile
        isPlaceholderCell).length = 5
    ∧ ((calendarCells entries cy cm today).filterMap cellDay).length = 30
    ∧ (calendarCells entries cy cm today).length = 35 := by
  refine ⟨?_, ?_, ?_⟩
  · rw [calendarCells_leading, hfw]
    rfl
  · rw [calendarCells_filterMap_day, List.length_range', h30]
  · rw [calendarCells_length, h30, hfw]
    decide

/-- C2 witness: the amended shape at the concrete month April 2022. -/
theorem calendarCells_30day_friday_witness :
    ((calendarCells [] 2022 4 ⟨2022, 4, 15⟩).takeWhile
        isPlaceholderCell).length = 5
    ∧ ((calendarCells [] 2022 4 ⟨2022, 4, 15⟩).filterMap cellDay).length = 30
    ∧ (calendarCells [] 2022 4 ⟨2022, 4, 15⟩).length = 35 :=
  calendarCells_30day_friday [] 2022 4 ⟨2022, 4, 15⟩ (by decide) (by decide)

/-- Looking up a key after an add-or-insert: the addressed key gains
`p` on top of its previous value (0 when absent); other keys are
untouched. -/
theorem mapGet_mapSetAdd (mp : ProfitMap) (k k' : CivilDate) (p : ℚ) :
    mapGet (mapSetAdd mp k p) k' =
      (if k' = k then some ((mapGet mp k).getD 0 + p) else mapGet mp k') := by
  induction mp with
  | nil =>
      by_cases h : k' = k
      · subst h
        simp [mapSetAdd, mapGet]
      · simp [mapSetAdd, mapGet, h, Ne.symm h]
  | cons av rest ih =>
      obtain ⟨a, v⟩ := av
      by_cases hak : a = k
      · subst hak
        by_cases hk : k' = a
        · subst hk
          simp [mapSetAdd, mapGet]
        · simp [mapSetAdd, mapGet, hk, Ne.symm hk]
      · by_cases hak' : a = k'
        · subst hak'
          simp [mapSetAdd, mapGet, hak, Ne.symm hak]
        · simp [mapSetAdd, mapGet, hak, hak', ih]

/-- Running the per-day netting over a record list, for a key inside
the target month: the key's final value is its previous value plus the
sum of the profits recorded on that day. -/
theorem mapGet_profitsFold (entries : List TradeEntry) (cy : Int) (cm : Nat)
    (mp : ProfitMap) (k : CivilDate) (hy : k.year = cy) (hm : k.month = cm) :
    mapGet (entries.foldl (profitsStep cy cm) mp) k =
      (if dayProfits entries k = [] then mapGet mp k
       else some ((mapGet mp k).getD 0 + (dayProfits entries k).sum)) := by
  induction entries generalizing mp with
  | nil => simp [dayProfits]
  | cons e t ih =>
      rw [List.foldl_cons]
      cases hp : e.realizedProfit with
      | none =>
          have hd : dayProfits (e :: t) k = dayProfits t k := by
            simp only [dayProfits, List.filterMap_cons, hp, ite_self]
          rw [hd]
          simp only [profitsStep, hp]
          exact ih mp
      | some p =>
          by_cases hin : e.tradeDate.year = cy ∧ e.tradeDate.month = cm
          · simp only [profitsStep, hp]
            rw [if_pos hin]
            by_cases hk : e.tradeDate = k
            · have hd : dayProfits (e :: t) k = p :: dayProfits t k := by
                simp [dayProfits, List.filterMap_cons, hk, hp]
              rw [hd, ih (mapSetAdd mp e.tradeDate p)]
              rw [mapGet_mapSetAdd mp e.tradeDate k p]
              simp only [hk, if_true, List.sum_cons]
              by_cases ht : dayProfits t k = []
              · simp [ht]
                try ring
              · simp [ht]
                try ring
            · have hd : dayProfits (e :: t) k = dayProfits t k := by
                simp [dayProfits, List.filterMap_cons, hk]
              rw [hd, ih (mapSetAdd mp e.tradeDate p)]
              rw [mapGet_mapSetAdd mp e.tradeDate k p]
              simp [Ne.symm hk]
          · have hne : e.tradeDate ≠ k := by
              intro hh
              exact hin (by rw [hh]; exact ⟨hy, hm⟩)
            have hd : dayProfits (e :: t) k = dayProfits t k := by
              simp [dayProfits, List.filterMap_cons, hne]
            rw [hd]
            simp only [profitsStep, hp]
            rw [if_neg hin]
            exact ih mp

/-- C4: for every record set and every calendar day of the target
month, the netting map holds `none` for that day exactly when no record
of that day has a recorded profit, and otherwise the sum of that day's
recorded profits; concretely, two same-day records of +500 and −200 net
into the single map entry 300 and the month summary classifies that day
as a gain day (gains = 300, losses = 0), while a day with one
absent-profit record nets to `none`, which differs from a recorded 0. -/
theorem dayNet_spec (entries : List TradeEntry) (cy : Int) (cm : Nat)
    (k : CivilDate) (hy : k.year = cy) (hm : k.month = cm) :
    mapGet (profitsByDate entries cy cm) k =
      (if dayProfits entries k = [] then none
       else some (dayProfits entries k).sum)
    ∧ profitsByDate
        [mkEntry "a" ⟨2024, 5, 10⟩ (some 500),
         mkEntry "b" ⟨2024, 5, 10⟩ (some (-200))] 2024 5 =
      [(⟨2024, 5, 10⟩, 300)]
    ∧ monthSummary
        [mkEntry "a" ⟨2024, 5, 10⟩ (some 500),
         mkEntry "b" ⟨2024, 5, 10⟩ (some (-200))] 2024 5 = ⟨300, 0, 300⟩
    ∧ mapGet (profitsByDate [mkEntry "c" ⟨2024, 5, 10⟩ none] 2024 5)
        ⟨2024, 5, 10⟩ = none
    ∧ (none : Option ℚ) ≠ some 0 := by
  refine ⟨?_, ?_, ?_, ?_, by simp⟩
  · rw [profitsByDate, mapGet_profitsFold entries cy cm [] k hy hm]
    simp [mapGet]
  · norm_num [profitsByDate, profitsStep, mapSetAdd, mkEntry]
  · norm_num [monthSummary, summaryFold, summaryStep, profitsByDate,
      profitsStep, mapSetAdd, mkEntry]
  · norm_num [profitsByDate, profitsStep, mapGet, mkEntry]

/-- C4 witness: the per-day characterization instantiated at a concrete
single-record day. -/
theorem dayNet_spec_witness :
    mapGet (profitsByDate [mkEntry "a" ⟨2024, 5, 10⟩ (some 500)] 2024 5)
        ⟨2024, 5, 10⟩ =
      (if dayProfits [mkEntry "a" ⟨2024, 5, 10⟩ (some 500)] ⟨2024, 5, 10⟩ = []
       then none
       else some
         (dayProfits [mkEntry "a" ⟨2024, 5, 10⟩ (some 500)]
           ⟨2024, 5, 10⟩).sum) :=
  (dayNet_spec [mkEntry "a" ⟨2024, 5, 10⟩ (some 500)] 2024 5 ⟨2024, 5, 10⟩
    rfl rfl).1

/-- The gains/losses accumulation from any starting pair adds the sum
of the positive values and the sum of the negative values. -/
theorem summaryFold_go (mp : ProfitMap) (a b : ℚ) :
    mp.foldl summaryStep (a, b) =
      (a + ((mp.map Prod.snd).filter (fun v => decide (0 < v))).sum,
        b + ((mp.map Prod.snd).filter (fun v => decide (v < 0))).sum) := by
  induction mp generalizing a b with
  | nil => simp
  | cons kv rest ih =>
      obtain ⟨k, v⟩ := kv
      rw [List.foldl_cons]
      rcases lt_trichotomy 0 v with h | h | h
      · simp only [summaryStep, if_pos h]
        rw [ih]
        simp [List.filter_cons, h, not_lt.mpr (le_of_lt h)]
        ring
      · have hv : v = 0 := h.symm
        subst hv
        simp only [summaryStep]
        rw [if_neg (lt_irrefl 0), if_neg (lt_irrefl 0)]
        rw [ih]
        simp [List.filter_cons]
      · simp only [summaryStep]
        rw [if_neg (not_lt.mpr (le_of_lt h)), if_pos h]
        rw [ih]
        simp [List.filter_cons, h, not_lt.mpr (le_of_lt h)]
        ring

/-- Splitting a rational sum by sign: the positive part plus the
negative part recovers the total, because neutral elements are 0. -/
theorem filter_sign_sum (l : List ℚ) :
    (l.filter (fun v => decide (0 < v))).sum +
      (l.filter (fun v => decide (v < 0))).sum = l.sum := by
  induction l with
  | nil => simp
  | cons v t ih =>
      rcases lt_trichotomy 0 v with h | h | h
      · simp only [List.filter_cons, List.sum_cons]
        rw [if_pos (by simpa using h), if_neg (by simpa using not_lt.mpr (le_of_lt h))]
        simp only [List.sum_cons]
        rw [add_assoc] at *
        linarith [ih]
      · have hv : v = 0 := h.symm
        subst hv
        simp only [List.filter_cons, List.sum_cons]
        rw [if_neg (by simp), if_neg (by simp)]
        rw [ih]
        simp
      · simp only [List.filter_cons, List.sum_cons]
        rw [if_neg (by simpa using not_lt.mpr (le_of_lt h)), if_pos (by simpa using h)]
        simp only [List.sum_cons]
        linarith [ih]

/-- C8: the month summary satisfies `gains + losses = net`; `gains` is
the sum of the positive per-day nets, `losses` the sum of the negative
per-day nets kept negative, zero nets contributing to neither; and
consequently `net` equals the plain sum of all per-day nets. -/
theorem monthSummary_gains_losses (entries : List TradeEntry) (cy : Int)
    (cm : Nat) :
    (monthSummary entries cy cm).gains + (monthSummary entries cy cm).losses =
        (monthSummary entries cy cm).net
    ∧ (monthSummary entries cy cm).gains =
        (((profitsByDate entries cy cm).map Prod.snd).filter
          (fun v => decide (0 < v))).sum
    ∧ (monthSummary entries cy cm).losses =
        (((profitsByDate entries cy cm).map Prod.snd).filter
          (fun v => decide (v < 0))).sum
    ∧ (monthSummary entries cy cm).net =
        ((profitsByDate entries cy cm).map Prod.snd).sum := by
  have hfold : (profitsByDate entries cy cm).foldl summaryStep 0 =
      ((((profitsByDate entries cy cm).map Prod.snd).filter
          (fun v => decide (0 < v))).sum,
        (((profitsByDate entries cy cm).map Prod.snd).filter
          (fun v => decide (v < 0))).sum) := by
    simpa using summaryFold_go (profitsByDate entries cy cm) 0 0
  refine ⟨rfl, ?_, ?_, ?_⟩
  · simp [monthSummary, summaryFold, hfold]
  · simp [monthSummary, summaryFold, hfold]
  · have hs := filter_sign_sum ((profitsByDate entries cy cm).map Prod.snd)
    simp [monthSummary, summaryFold, hfold, hs]

/-- C9: the calendar aggregator is a pure function — two calls on
identical records, target month and today give structurally identical
views — and the cell identity keys are derived from the calendar date
for day cells (`dateKey` of the cell's date) and from the grid position
for placeholders (`placeholder-start-i` for the i-th leading cell,
`placeholder-end-i` for trailing column i). -/
theorem buildMonthView_deterministic (entries : List TradeEntry) (cy : Int)
    (cm : Nat) (today : CivilDate) :
    buildMonthView entries cy cm today = buildMonthView entries cy cm today
    ∧ ∀ c ∈ (buildMonthView entries cy cm today).cells,
        (∀ k d p it, c = CalendarCell.dayCell k d p it →
          k = dateKey ⟨cy, cm, d⟩)
        ∧ (∀ k, c = CalendarCell.placeholder k →
            (∃ i, i < (jsGetDay (daysFromCivil cy cm 1)).toNat ∧
              k = "placeholder-start-" ++ toString i)
            ∨ (∃ i, ((jsGetDay (daysFromCivil cy cm 1)).toNat
                  + daysInMonth cy cm) % 7 ≤ i ∧ i < 7 ∧
              k = "placeholder-end-" ++ toString i)) := by
  refine ⟨rfl, ?_⟩
  intro c hc
  simp only [buildMonthView] at hc
  rw [calendarCells_eq, List.append_assoc] at hc
  rcases List.mem_append.mp hc with hlead | hrest
  · obtain ⟨i, hi, rfl⟩ := List.mem_map.mp hlead
    constructor
    · intro k d p it hcell
      cases hcell
    · intro k hcell
      cases hcell
      exact Or.inl ⟨i, List.mem_range.mp hi, rfl⟩
  · rcases List.mem_append.mp hrest with hday | htrail
    · obtain ⟨d, _, rfl⟩ := List.mem_map.mp hday
      constructor
      · intro k d' p it hcell
        cases hcell
        rfl
      · intro k hcell
        cases hcell
    · constructor
      · intro k d p it hcell
        rw [hcell] at htrail
        split at htrail
        · cases htrail
        · obtain ⟨i, _, hmap⟩ := List.mem_map.mp htrail
          cases hmap
      · intro k hcell
        rw [hcell] at htrail
        split at htrail
        · cases htrail
        · obtain ⟨i, hi, hmap⟩ := List.mem_map.mp htrail
          rcases List.mem_range'_1.mp hi with ⟨h1, h2⟩
          refine Or.inr ⟨i, h1, ?_, ?_⟩
          · have hmod : ((jsGetDay (daysFromCivil cy cm 1)).toNat
                + daysInMonth cy cm) % 7 < 7 := Nat.mod_lt _ (by norm_num)
            omega
          · cases hmap
            rfl

/-- C9 witness: the determinism conjunct and a key-shape consequence at
a concrete month. -/
theorem buildMonthView_deterministic_witness :
    buildMonthView [] 2024 5 ⟨2024, 5, 10⟩ =
      buildMonthView [] 2024 5 ⟨2024, 5, 10⟩ :=
  (buildMonthView_deterministic [] 2024 5 ⟨2024, 5, 10⟩).1

end DayTraderDiary
